import Mathlib

/-!
Verification of the BAC Analyzer authorization comparison engine.

Shallow embedding of the core decision logic:
  - `matrix_validator.py` : `is_allowed`, `compare`
  - `analyzer.py`         : `status_to_result`, `run_checks`
  - `differential_analyzer.py` : `is_success`, `compare_roles`

Python dicts are modelled as association lists (`List (String × α)`) whose
order is the dict's insertion order; dict access `d[k]` / `d.get(k)` and the
membership test `k in d` are modelled by `dictGet`.  HTTP status codes are
plain integers (the Prober absorbs transport failures into the sentinel 0).
The Prober (`requester.call_api`) is an external collaborator and is passed
in as an abstract function `probe : Endpoint → String → Int` mapping an
endpoint definition and a bearer token to a status code.
-/

namespace BacAnalyzer

/-- One entry of the endpoint catalog (`endpoints.yaml`): HTTP method and URL.
The defaults `"GET"` / `""` of `endpoint.get("method", "GET")` /
`endpoint.get("url", "")` are applied when the record is constructed. -/
structure Endpoint where
  method : String
  url : String
deriving Repr, DecidableEq

/-- Association-list lookup: Python dict access for string-keyed dicts.
Returns the value bound to `k`, or `none` (Python `None` / `KeyError` branch)
when `k` is absent. -/
def dictGet {α : Type} (d : List (String × α)) (k : String) : Option α :=
  match d with
  | [] => none
  | kv :: rest => if kv.1 = k then some kv.2 else dictGet rest k

/-! ## matrix_validator.py -/

/-- `is_allowed(status_code)`: True if the status code indicates success. -/
def is_allowed (status_code : Int) : Bool :=
  decide (status_code < 400)

/-- `compare(expected, actual)`: True if the two authorization results match. -/
def compare (expected actual : String) : Bool :=
  expected == actual

/-! ## analyzer.py -/

/-- `status_to_result(status_code)`: convert an HTTP status code to
`"allow"`/`"deny"`. -/
def status_to_result (status_code : Int) : String :=
  if is_allowed status_code then "allow" else "deny"

/-- A mismatch record appended by `run_checks`: the dict
`{"role": …, "endpoint": …, "expected": …, "actual": …, "status": …}`. -/
structure Mismatch where
  role : String
  endpoint : String
  expected : String
  actual : String
  status : Int
deriving Repr, DecidableEq

/-- Body of the inner loop of `run_checks`: one `(endpoint_name, expected)`
entry of a role's expectations.  Unknown endpoints are skipped (`continue`);
otherwise the Prober is invoked, the status classified, and a `Mismatch`
returned exactly when `not compare(expected, actual)`. -/
def check_endpoint (probe : Endpoint → String → Int)
    (endpoints_by_name : List (String × Endpoint))
    (role token : String) (ex : String × String) : Option Mismatch :=
  match dictGet endpoints_by_name ex.1 with
  | none => none
  | some endpoint =>
    let status_code := probe endpoint token
    let actual := status_to_result status_code
    if compare ex.2 actual then none
    else some { role := role, endpoint := ex.1, expected := ex.2,
                actual := actual, status := status_code }

/-- Body of the outer loop of `run_checks`: one `(role, token)` entry of the
credential set.  Roles absent from the matrix are skipped (`continue`);
otherwise every expectation of that role's matrix row is checked in row
insertion order. -/
def check_role (probe : Endpoint → String → Int)
    (endpoints_by_name : List (String × Endpoint))
    (matrix : List (String × List (String × String)))
    (rt : String × String) : List Mismatch :=
  match dictGet matrix rt.1 with
  | none => []
  | some role_expectations =>
    role_expectations.filterMap (check_endpoint probe endpoints_by_name rt.1 rt.2)

/-- `run_checks(tokens, endpoints_by_name, matrix)`: run all role × endpoint
checks and return the list of mismatches, iterating `tokens.items()` in
insertion order and, within a role, the role's matrix row in insertion
order. -/
def run_checks (probe : Endpoint → String → Int)
    (tokens : List (String × String))
    (endpoints_by_name : List (String × Endpoint))
    (matrix : List (String × List (String × String))) : List Mismatch :=
  tokens.flatMap (check_role probe endpoints_by_name matrix)

/-! ## differential_analyzer.py -/

/-- `is_success(status_code)`: True if the status code indicates a successful
response. -/
def is_success (status_code : Int) : Bool :=
  decide (status_code < 400)

/-- A differential finding dict produced by `make_finding` inside
`compare_roles`. -/
structure DifferentialFinding where
  ftype : String
  endpoint : String
  method : String
  url : String
  roles_compared : List String
  status_codes : List (String × Int)
  severity : String
  reason : String
deriving Repr, DecidableEq

/-- The `make_finding` closure of `compare_roles`, with its captured values
(`endpoint_name`, `method`, `url`, `role_statuses`) as explicit parameters.
`status_codes` is `{r: role_statuses[r] for r in roles_compared}`; the
source indexes the dict directly (every compared role is a key of the map),
so the `getD 0` default is never exercised on reachable calls. -/
def make_finding (endpoint_name method url : String)
    (role_statuses : List (String × Int))
    (roles_compared : List String) (severity reason : String) :
    DifferentialFinding :=
  { ftype := "differential_access"
    endpoint := endpoint_name
    method := method
    url := url
    roles_compared := roles_compared
    status_codes := roles_compared.map fun r => (r, (dictGet role_statuses r).getD 0)
    severity := severity
    reason := reason }

/-- Rule 3 ("Suspicious Equality") of `compare_roles`: if the role→status map
is non-empty (`if role_statuses and …`) and every status is a success and
equals the literal 200, one medium finding over all roles of the map. -/
def ruleA_findings (endpoint_name method url : String)
    (role_statuses : List (String × Int)) : List DifferentialFinding :=
  if !role_statuses.isEmpty
      && role_statuses.all (fun p => is_success p.2 && p.2 == 200) then
    [make_finding endpoint_name method url role_statuses
      (role_statuses.map Prod.fst) "medium" "All roles have identical access"]
  else []

/-- Body of the per-role loop of `compare_roles` (Rules 2 and 1): the admin
role itself is skipped (`continue`); otherwise, by `elif` semantics, at most
one of the inverted-privilege and same-access findings is produced for the
pair (admin, role). -/
def bc_pair_finding (endpoint_name method url : String)
    (role_statuses : List (String × Int)) (admin_status : Int)
    (p : String × Int) : Option DifferentialFinding :=
  if p.1 = "admin" then none
  else if !is_success admin_status && is_success p.2 then
    some (make_finding endpoint_name method url role_statuses
      ["admin", p.1] "critical" "Inverted privilege hierarchy")
  else if is_success admin_status && admin_status == p.2 then
    some (make_finding endpoint_name method url role_statuses
      ["admin", p.1] "high" "Lower privilege role has same access as admin")
  else none

/-- Body of the per-endpoint loop of `compare_roles`: endpoints absent from
the catalog are skipped (`continue`); Rule 3 runs first, then — only when
`role_statuses.get("admin")` is present — Rules 2/1 run once per entry of the
map in insertion order. -/
def compare_endpoint (endpoints_by_name : List (String × Endpoint))
    (er : String × List (String × Int)) : List DifferentialFinding :=
  match dictGet endpoints_by_name er.1 with
  | none => []
  | some endpoint =>
    let base := ruleA_findings er.1 endpoint.method endpoint.url er.2
    match dictGet er.2 "admin" with
    | none => base
    | some admin_status =>
      base ++ er.2.filterMap
        (bc_pair_finding er.1 endpoint.method endpoint.url er.2 admin_status)

/-- `compare_roles(results, endpoints_by_name)`: analyze per-endpoint role
results (`endpoint_name -> role -> status_code`) and return the list of
differential findings, iterating `results.items()` in insertion order. -/
def compare_roles (results : List (String × List (String × Int)))
    (endpoints_by_name : List (String × Endpoint)) : List DifferentialFinding :=
  results.flatMap (compare_endpoint endpoints_by_name)

/-- Phase 1 + Phase 2 of `run_differential_analysis`: probe every catalog
endpoint with every role's token (no skipping), then compare roles. -/
def run_differential_analysis (probe : Endpoint → String → Int)
    (tokens : List (String × String))
    (endpoints_by_name : List (String × Endpoint)) : List DifferentialFinding :=
  let results := endpoints_by_name.map fun ne =>
    (ne.1, tokens.map fun rt => (rt.1, probe ne.2 rt.2))
  compare_roles results endpoints_by_name

/-- A fixed endpoint definition used for concrete instances. -/
def ep0 : Endpoint := { method := "GET", url := "http://api/e" }

/-! ## Theorems -/

/-- C1: evaluation of both classification functions on the claimed boundary
table.  The entries 200/399/400 hold, but the table fails at 0 and at 199:
both status codes are below the 400 threshold, so both classify as `allow`.
For 0 this contradicts the transport-failure intent recorded in the code
itself (`requester.call_api` returns 0 with the comment "Treat
network/request errors as failure (deny)"): a failed probe classifies as
`allow`, not `deny`. -/
theorem classify_sentinel_0_is_allow :
    (is_allowed 0 = true ∧ is_success 0 = true ∧ status_to_result 0 = "allow") ∧
    (is_allowed 199 = true ∧ is_success 199 = true ∧
      status_to_result 199 = "allow") ∧
    (status_to_result 200 = "allow" ∧ status_to_result 399 = "allow" ∧
      status_to_result 400 = "deny") := by
  decide

/-- C6: outcome classification is the pure threshold at 400: `is_allowed` and
`is_success` return true exactly when the status code is below 400, and
`status_to_result` returns `"allow"` exactly when the status code is below
400 and `"deny"` otherwise.  All three are total Lean functions over `Int`,
so they are defined (and raise nothing) on every integer input. -/
theorem classification_is_threshold (s : Int) :
    (is_allowed s = true ↔ s < 400) ∧ (is_success s = true ↔ s < 400) ∧
    (status_to_result s = "allow" ↔ s < 400) ∧
    (status_to_result s = "deny" ↔ ¬ s < 400) := by
  refine ⟨by simp [is_allowed], by simp [is_success], ?_, ?_⟩ <;>
    by_cases h : s < 400 <;>
      simp [status_to_result, is_allowed, h]

/-- Any mismatch produced by `check_endpoint` carries the role, the endpoint
name and the expected outcome of the checked pair, an endpoint resolved from
the catalog, the probed status code, and its classification, and exists only
because classification and expectation differ. -/
lemma check_endpoint_some (probe : Endpoint → String → Int)
    (eps : List (String × Endpoint)) (role token : String)
    (ex : String × String) (m : Mismatch)
    (h : check_endpoint probe eps role token ex = some m) :
    m.role = role ∧ m.endpoint = ex.1 ∧ m.expected = ex.2 ∧
      ∃ ep, dictGet eps ex.1 = some ep ∧ m.status = probe ep token ∧
        m.actual = status_to_result (probe ep token) ∧
        status_to_result (probe ep token) ≠ ex.2 := by
  unfold check_endpoint at h
  cases hep : dictGet eps ex.1 with
  | none => rw [hep] at h; exact absurd h (by simp)
  | some ep =>
    rw [hep] at h
    simp only at h
    by_cases hc : compare ex.2 (status_to_result (probe ep token))
    · rw [if_pos hc] at h; exact absurd h (by simp)
    · rw [if_neg hc] at h
      have hm := (Option.some_inj.mp h).symm
      subst hm
      refine ⟨rfl, rfl, rfl, ep, rfl, rfl, rfl, ?_⟩
      intro he
      exact hc (by simp [compare, he])

/-- When the endpoint of the checked pair resolves in the catalog,
`check_endpoint` produces exactly one mismatch iff the classified status
differs from the expectation, and no record otherwise. -/
lemma check_endpoint_eq (probe : Endpoint → String → Int)
    (eps : List (String × Endpoint)) (role token : String)
    (ex : String × String) (ep : Endpoint) (h : dictGet eps ex.1 = some ep) :
    check_endpoint probe eps role token ex =
      if status_to_result (probe ep token) = ex.2 then none
      else some { role := role, endpoint := ex.1, expected := ex.2,
                  actual := status_to_result (probe ep token),
                  status := probe ep token } := by
  unfold check_endpoint
  rw [h]
  simp only
  by_cases he : status_to_result (probe ep token) = ex.2
  · rw [if_pos he, if_pos (by simp [compare, he])]
  · rw [if_neg he, if_neg (by simp [compare]; exact fun hx => he hx.symm)]

/-- Membership in one role's block of mismatches: the role resolves to a
matrix row and some entry of that row produced the mismatch. -/
lemma mem_check_role (probe : Endpoint → String → Int)
    (eps : List (String × Endpoint))
    (matrix : List (String × List (String × String)))
    (rt : String × String) (m : Mismatch) :
    m ∈ check_role probe eps matrix rt ↔
      ∃ row, dictGet matrix rt.1 = some row ∧
        ∃ ex ∈ row, check_endpoint probe eps rt.1 rt.2 ex = some m := by
  unfold check_role
  cases hrow : dictGet matrix rt.1 with
  | none => simp
  | some row => simp [List.mem_filterMap]

/-- C5: when no role named `admin` is present in an endpoint's role→status
map, the differential findings for that endpoint are exactly the Rule A
findings — Rules B and C contribute nothing, whatever the other roles'
statuses are, while Rule A may still fire. -/
theorem no_admin_skips_rules_b_c (e : String) (ep : Endpoint)
    (rs : List (String × Int)) (h : dictGet rs "admin" = none) :
    compare_roles [(e, rs)] [(e, ep)] =
      ruleA_findings e ep.method ep.url rs := by
  simp [compare_roles, compare_endpoint, dictGet, h]

/-- Witness for C5 at a concrete map without an admin role (whose single
role probes 200, so Rule A does fire while B and C cannot). -/
theorem no_admin_skips_rules_b_c_witness :
    dictGet [("manager", (200 : Int))] "admin" = none ∧
    compare_roles [("e1", [("manager", (200 : Int))])] [("e1", ep0)] =
      ruleA_findings "e1" "GET" "http://api/e" [("manager", (200 : Int))] :=
  ⟨by decide, no_admin_skips_rules_b_c "e1" ep0 [("manager", 200)] (by decide)⟩

/-- One role block of `run_checks` is unchanged when the two probers agree on
every (endpoint, token) pair the block actually checks. -/
lemma check_role_congr (probeA probeB : Endpoint → String → Int)
    (eps : List (String × Endpoint))
    (matrix : List (String × List (String × String))) (rt : String × String)
    (h : ∀ (row : List (String × String)) (epname expected : String)
        (ep : Endpoint),
      dictGet matrix rt.1 = some row → (epname, expected) ∈ row →
      dictGet eps epname = some ep → probeA ep rt.2 = probeB ep rt.2) :
    check_role probeA eps matrix rt = check_role probeB eps matrix rt := by
  unfold check_role
  cases hrow : dictGet matrix rt.1 with
  | none => rfl
  | some row =>
    apply List.filterMap_congr
    intro ex hex
    unfold check_endpoint
    cases hep : dictGet eps ex.1 with
    | none => rfl
    | some ep =>
      dsimp only
      rw [h row ex.1 ex.2 ep hrow (by simpa using hex) hep]

/-- C7: pairs not jointly present in the credential set, matrix, and catalog
are skipped without error and never probed.  First, every emitted mismatch
references a role with a credential, a matrix row of that role containing
the endpoint name, and a catalog entry for that endpoint — so no mismatch
references a pair that is not jointly present.  Second, the output does not
depend on the prober's behaviour outside the jointly present pairs: two
probers that agree on every actually-checked (endpoint, token) pair produce
identical mismatch lists, i.e. the Prober is never invoked for a skipped
pair. -/
theorem run_checks_skips_missing_pairs :
    (∀ (probe : Endpoint → String → Int) (tokens : List (String × String))
        (endpoints : List (String × Endpoint))
        (matrix : List (String × List (String × String))) (m : Mismatch),
      m ∈ run_checks probe tokens endpoints matrix →
        (∃ token, (m.role, token) ∈ tokens) ∧
        (∃ row, dictGet matrix m.role = some row ∧
          ∃ exp, (m.endpoint, exp) ∈ row) ∧
        (∃ ep, dictGet endpoints m.endpoint = some ep)) ∧
    (∀ (probeA probeB : Endpoint → String → Int)
        (tokens : List (String × String))
        (endpoints : List (String × Endpoint))
        (matrix : List (String × List (String × String))),
      (∀ (role token : String) (row : List (String × String))
          (epname expected : String) (ep : Endpoint),
        (role, token) ∈ tokens → dictGet matrix role = some row →
        (epname, expected) ∈ row → dictGet endpoints epname = some ep →
        probeA ep token = probeB ep token) →
      run_checks probeA tokens endpoints matrix =
        run_checks probeB tokens endpoints matrix) := by
  constructor
  · intro probe tokens endpoints matrix m hm
    rw [run_checks, List.mem_flatMap] at hm
    obtain ⟨rt, hrt, hm2⟩ := hm
    rw [mem_check_role] at hm2
    obtain ⟨row, hrow, ex, hex, hce⟩ := hm2
    obtain ⟨h1, h2, h3, ep, hep, -⟩ :=
      check_endpoint_some probe endpoints rt.1 rt.2 ex m hce
    refine ⟨⟨rt.2, ?_⟩, ⟨row, ?_, ⟨ex.2, ?_⟩⟩, ⟨ep, ?_⟩⟩
    · rw [h1]; simpa using hrt
    · rw [h1]; exact hrow
    · rw [h2]; simpa using hex
    · rw [h2]; exact hep
  · intro probeA probeB tokens endpoints matrix
    unfold run_checks
    induction tokens with
    | nil => intro _; rfl
    | cons rt rest ih =>
      intro hagree
      rw [List.flatMap_cons, List.flatMap_cons]
      congr 1
      · exact check_role_congr probeA probeB endpoints matrix rt
          (fun row epname expected ep hrow hex hep =>
            hagree rt.1 rt.2 row epname expected ep (by simp) hrow hex hep)
      · exact ih (fun role token row epname expected ep hmem hrow hex hep =>
          hagree role token row epname expected ep
            (List.mem_cons_of_mem rt hmem) hrow hex hep)

/-- Witness for C7: in the concrete 403 run of end-to-end A, the single
emitted mismatch references a jointly present pair. -/
theorem run_checks_skips_missing_pairs_witness :
    (∃ token, (("admin" : String), token) ∈ [("admin", "t")]) ∧
    (∃ row, dictGet [("admin", [("ep1", "allow")])] "admin" = some row ∧
      ∃ exp, (("ep1" : String), exp) ∈ row) ∧
    (∃ ep, dictGet [("ep1", ep0)] "ep1" = some ep) :=
  run_checks_skips_missing_pairs.1 (fun _ _ => 403) [("admin", "t")]
    [("ep1", ep0)] [("admin", [("ep1", "allow")])]
    { role := "admin", endpoint := "ep1", expected := "allow",
      actual := "deny", status := 403 } (by decide)

/-- Role blocks other than the checked role's contribute no mismatch
referencing that role. -/
lemma filter_check_role_ne (probe : Endpoint → String → Int)
    (eps : List (String × Endpoint))
    (matrix : List (String × List (String × String)))
    (rt : String × String) (role epname : String) (hne : rt.1 ≠ role) :
    (check_role probe eps matrix rt).filter
        (fun m => decide (m.role = role ∧ m.endpoint = epname)) = [] := by
  rw [List.filter_eq_nil_iff]
  intro m hm
  rw [mem_check_role] at hm
  obtain ⟨row, hrow, ex, hex, hce⟩ := hm
  have h1 := (check_endpoint_some probe eps rt.1 rt.2 ex m hce).1
  simp only [decide_eq_true_eq, not_and]
  intro hr
  exact absurd (h1.symm.trans hr) hne

/-- Row entries with other endpoint names contribute no mismatch referencing
the checked endpoint name. -/
lemma filter_row_no_key (probe : Endpoint → String → Int)
    (eps : List (String × Endpoint)) (role token rl : String)
    (row : List (String × String)) (epname : String)
    (hnk : epname ∉ row.map Prod.fst) :
    ((row.filterMap (check_endpoint probe eps rl token)).filter
        (fun m => decide (m.role = role ∧ m.endpoint = epname))) = [] := by
  rw [List.filter_eq_nil_iff]
  intro m hm
  rw [List.mem_filterMap] at hm
  obtain ⟨ex, hex, hce⟩ := hm
  have h2 := (check_endpoint_some probe eps rl token ex m hce).2.1
  simp only [decide_eq_true_eq, not_and]
  intro _ hepn
  exact hnk (List.mem_map.mpr ⟨ex, hex, h2.symm.trans hepn⟩)

/-- Within the checked role's row (whose endpoint names are distinct, as in
a dict), the checked entry is the unique contributor of mismatches
referencing (role, epname): exactly one record iff classification differs,
carrying role, endpoint name, expected and observed outcome, and the raw
status code. -/
lemma filter_row_unique (probe : Endpoint → String → Int)
    (eps : List (String × Endpoint)) (role token : String)
    (row : List (String × String)) (epname expected : String) (ep : Endpoint)
    (hep : dictGet eps epname = some ep) :
    (epname, expected) ∈ row → (row.map Prod.fst).Nodup →
    ((row.filterMap (check_endpoint probe eps role token)).filter
        (fun m => decide (m.role = role ∧ m.endpoint = epname))) =
      (if status_to_result (probe ep token) = expected then []
       else [{ role := role, endpoint := epname, expected := expected,
               actual := status_to_result (probe ep token),
               status := probe ep token }]) := by
  induction row with
  | nil => intro hmem _; exact absurd hmem (by simp)
  | cons ex rest ih =>
    intro hmem hnd
    have hnd2 : (rest.map Prod.fst).Nodup :=
      (List.nodup_cons.mp (by simpa using hnd)).2
    have hnotin : ex.1 ∉ rest.map Prod.fst :=
      (List.nodup_cons.mp (by simpa using hnd)).1
    rcases List.mem_cons.mp hmem with hhead | htail
    · have hex : ex = (epname, expected) := hhead.symm
      subst hex
      rw [List.filterMap_cons,
        check_endpoint_eq probe eps role token (epname, expected) ep hep]
      by_cases hcase : status_to_result (probe ep token) = expected
      · rw [if_pos hcase, if_pos hcase]
        exact filter_row_no_key probe eps role token role rest epname
          (by simpa using hnotin)
      · rw [if_neg hcase, if_neg hcase]
        rw [List.filter_cons, if_pos (by simp)]
        rw [filter_row_no_key probe eps role token role rest epname
          (by simpa using hnotin)]
    · have hkey : epname ∈ rest.map Prod.fst :=
        List.mem_map.mpr ⟨(epname, expected), htail, rfl⟩
      have hne : ex.1 ≠ epname := fun h => hnotin (h ▸ hkey)
      rw [List.filterMap_cons]
      cases hch : check_endpoint probe eps role token ex with
      | none => exact ih htail hnd2
      | some m =>
        have h2 := (check_endpoint_some probe eps role token ex m hch).2.1
        have hpred : ¬ (decide (m.role = role ∧ m.endpoint = epname) = true) := by
          simp only [decide_eq_true_eq, not_and]
          intro _ hepn
          exact hne (h2.symm.trans hepn)
        rw [List.filter_cons, if_neg hpred]
        exact ih htail hnd2

/-- Role blocks of a credential list that does not contain the checked role
contribute no mismatch referencing it. -/
lemma filter_flatMap_no_role (probe : Endpoint → String → Int)
    (eps : List (String × Endpoint))
    (matrix : List (String × List (String × String)))
    (ts : List (String × String)) (role epname : String)
    (h : role ∉ ts.map Prod.fst) :
    ((ts.flatMap (check_role probe eps matrix)).filter
        (fun m => decide (m.role = role ∧ m.endpoint = epname))) = [] := by
  rw [List.filter_eq_nil_iff]
  intro m hm
  rw [List.mem_flatMap] at hm
  obtain ⟨rt, hrt, hm2⟩ := hm
  rw [mem_check_role] at hm2
  obtain ⟨row, hrow, ex, hex, hce⟩ := hm2
  have h1 := (check_endpoint_some probe eps rt.1 rt.2 ex m hce).1
  simp only [decide_eq_true_eq, not_and]
  intro hr _
  exact h (List.mem_map.mpr ⟨rt, hrt, h1.symm.trans hr⟩)

/-- C2: for every (role, endpoint) pair actually checked by the runner (role
in both the credential set and the matrix, endpoint in both the role's
matrix row and the catalog, with dict keys distinct as in Python dicts), the
mismatches referencing that pair are exactly one record iff the classified
observed outcome differs from the declared expectation — carrying role,
endpoint name, expected outcome, observed outcome, and the raw status code —
and no record when they match.  In particular, end-to-end A: a probed 200
against `{admin: {ep1: allow}}` yields zero mismatches, and a probed 403
yields the single mismatch
`{role: admin, endpoint: ep1, expected: allow, actual: deny, status: 403}`. -/
theorem run_checks_per_pair_mismatch :
    (∀ (probe : Endpoint → String → Int) (tokens : List (String × String))
        (endpoints : List (String × Endpoint))
        (matrix : List (String × List (String × String)))
        (role token : String) (row : List (String × String))
        (epname expected : String) (ep : Endpoint),
      (role, token) ∈ tokens → (tokens.map Prod.fst).Nodup →
      dictGet matrix role = some row →
      (epname, expected) ∈ row → (row.map Prod.fst).Nodup →
      dictGet endpoints epname = some ep →
      (run_checks probe tokens endpoints matrix).filter
          (fun m => decide (m.role = role ∧ m.endpoint = epname)) =
        (if status_to_result (probe ep token) = expected then []
         else [{ role := role, endpoint := epname, expected := expected,
                 actual := status_to_result (probe ep token),
                 status := probe ep token }])) ∧
    run_checks (fun _ _ => 200) [("admin", "t")] [("ep1", ep0)]
        [("admin", [("ep1", "allow")])] = [] ∧
    run_checks (fun _ _ => 403) [("admin", "t")] [("ep1", ep0)]
        [("admin", [("ep1", "allow")])] =
      [{ role := "admin", endpoint := "ep1", expected := "allow",
         actual := "deny", status := 403 }] := by
  refine ⟨?_, by decide, by decide⟩
  intro probe tokens endpoints matrix role token row epname expected ep
  intro hmemT hndT hrow hmemR hndR hep
  unfold run_checks
  revert hmemT hndT
  induction tokens with
  | nil => intro hmemT _; exact absurd hmemT (by simp)
  | cons rt rest ih =>
    intro hmemT hndT
    have hndT2 : (rest.map Prod.fst).Nodup :=
      (List.nodup_cons.mp (by simpa using hndT)).2
    have hnotin : rt.1 ∉ rest.map Prod.fst :=
      (List.nodup_cons.mp (by simpa using hndT)).1
    rw [List.flatMap_cons, List.filter_append]
    by_cases hr : rt.1 = role
    · have hrt : rt = (role, token) := by
        rcases List.mem_cons.mp hmemT with he | ht
        · exact he.symm
        · exact absurd (List.mem_map.mpr ⟨(role, token), ht, rfl⟩)
            (hr ▸ hnotin)
      rw [filter_flatMap_no_role probe endpoints matrix rest role epname
        (hr ▸ hnotin), List.append_nil]
      subst hrt
      unfold check_role
      dsimp only
      rw [hrow]
      exact filter_row_unique probe endpoints role token row epname expected
        ep hep hmemR hndR
    · rw [filter_check_role_ne probe endpoints matrix rt role epname hr,
        List.nil_append]
      have ht : (role, token) ∈ rest := by
        rcases List.mem_cons.mp hmemT with he | ht2
        · exact absurd (by rw [← he]) hr
        · exact ht2
      exact ih ht hndT2

/-- Witness for C2 at the end-to-end A configuration with a probed 403: the
checked pair (admin, ep1) contributes exactly its single mismatch record. -/
theorem run_checks_per_pair_mismatch_witness :
    (run_checks (fun _ _ => 403) [("admin", "t")] [("ep1", ep0)]
        [("admin", [("ep1", "allow")])]).filter
        (fun m => decide (m.role = "admin" ∧ m.endpoint = "ep1")) =
      (if status_to_result 403 = "allow" then []
       else [{ role := "admin", endpoint := "ep1", expected := "allow",
               actual := status_to_result 403, status := 403 }]) :=
  run_checks_per_pair_mismatch.1 (fun _ _ => 403) [("admin", "t")]
    [("ep1", ep0)] [("admin", [("ep1", "allow")])] "admin" "t"
    [("ep1", "allow")] "ep1" "allow" ep0
    (by decide) (by decide) (by decide) (by decide) (by decide) (by decide)

/-- C8 (counterexample): the mismatch list is NOT ordered by the matrix's
role insertion order.  With credential set `[b, a]` and matrix rows declared
in order `[a, b]`, both pairs mismatch, and the emitted roles come out in
the credential set's order `[b, a]`, not the matrix's `[a, b]`. -/
theorem run_checks_order_not_matrix_order :
    (run_checks (fun _ _ => 200) [("b", "tb"), ("a", "ta")] [("e1", ep0)]
        [("a", [("e1", "deny")]), ("b", [("e1", "deny")])]).map Mismatch.role
      = ["b", "a"] ∧
    (["b", "a"] : List String) ≠ ["a", "b"] := by
  decide

/-- C8 (amended): the Matrix Check Runner iterates roles in the insertion
order of the credential set (`tokens.items()`), and endpoints within a role
in the insertion order of that role's matrix row; emission order follows
these iterations and no state is carried across them (the output for a
concatenation of credential entries, or of row entries, is the concatenation
of the outputs). -/
theorem run_checks_iteration_order :
    (∀ (probe : Endpoint → String → Int) (endpoints : List (String × Endpoint))
        (matrix : List (String × List (String × String)))
        (t1 t2 : List (String × String)),
      run_checks probe (t1 ++ t2) endpoints matrix =
        run_checks probe t1 endpoints matrix ++
          run_checks probe t2 endpoints matrix) ∧
    (∀ (probe : Endpoint → String → Int) (endpoints : List (String × Endpoint))
        (role token : String) (r1 r2 : List (String × String)),
      run_checks probe [(role, token)] endpoints [(role, r1 ++ r2)] =
        run_checks probe [(role, token)] endpoints [(role, r1)] ++
          run_checks probe [(role, token)] endpoints [(role, r2)]) ∧
    (run_checks (fun _ _ => 200) [("b", "tb"), ("a", "ta")] [("e1", ep0)]
        [("a", [("e1", "deny")]), ("b", [("e1", "deny")])]).map Mismatch.role
      = ["b", "a"] := by
  refine ⟨?_, ?_, by decide⟩
  · intro probe endpoints matrix t1 t2
    simp [run_checks, List.flatMap_append]
  · intro probe endpoints role token r1 r2
    simp [run_checks, check_role, dictGet, List.filterMap_append]

/-- A successful `dictGet` is witnessed by an entry of the list with the
looked-up key and value. -/
lemma dictGet_some_mem {α : Type} (d : List (String × α)) (k : String) (v : α)
    (h : dictGet d k = some v) : ∃ p, p ∈ d ∧ p.1 = k ∧ p.2 = v := by
  induction d with
  | nil => exact absurd h (by simp [dictGet])
  | cons kv rest ih =>
    rw [dictGet] at h
    by_cases hk : kv.1 = k
    · rw [if_pos hk] at h
      exact ⟨kv, by simp, hk, Option.some_inj.mp h⟩
    · rw [if_neg hk] at h
      obtain ⟨p, hp, hp1, hp2⟩ := ih h
      exact ⟨p, by simp [hp], hp1, hp2⟩

/-- Every key of the association list resolves under `dictGet`. -/
lemma dictGet_isSome_of_mem_keys {α : Type} (d : List (String × α))
    (k : String) (h : k ∈ d.map Prod.fst) : ∃ v, dictGet d k = some v := by
  induction d with
  | nil => exact absurd h (by simp)
  | cons kv rest ih =>
    rw [dictGet]
    by_cases hk : kv.1 = k
    · exact ⟨kv.2, by rw [if_pos hk]⟩
    · rw [if_neg hk]
      rcases List.mem_map.mp h with ⟨p, hp, hpk⟩
      rcases List.mem_cons.mp hp with rfl | hmem
      · exact absurd hpk hk
      · exact ih (List.mem_map.mpr ⟨p, hmem, hpk⟩)

/-- `compare_roles` on a single endpoint decomposes into the Rule A findings
followed by the per-role Rule B/C findings (which exist only when an admin
status is present), in the insertion order of the role→status map. -/
lemma compare_roles_singleton (e : String) (ep : Endpoint)
    (rs : List (String × Int)) :
    compare_roles [(e, rs)] [(e, ep)] =
      ruleA_findings e ep.method ep.url rs ++
        (match dictGet rs "admin" with
         | none => []
         | some a => rs.filterMap (bc_pair_finding e ep.method ep.url rs a)) := by
  unfold compare_roles compare_endpoint
  rw [List.flatMap_cons, List.flatMap_nil, List.append_nil]
  have he : dictGet [(e, ep)] e = some ep := by simp [dictGet]
  rw [he]
  cases dictGet rs "admin" with
  | none => simp
  | some a => rfl

/-- Shape of a Rule B/C finding: produced only for a non-admin role, it
compares exactly [admin, role], restricts the status-code map to those two
roles, carries the endpoint identity it was built from, and is either the
critical inverted-privilege finding or the high same-access finding. -/
lemma bc_pair_finding_some (e m u : String) (rs : List (String × Int))
    (a : Int) (p : String × Int) (f : DifferentialFinding)
    (h : bc_pair_finding e m u rs a p = some f) :
    p.1 ≠ "admin" ∧ f.endpoint = e ∧ f.method = m ∧ f.url = u ∧
      f.roles_compared = ["admin", p.1] ∧
      f.status_codes =
        ["admin", p.1].map (fun r => (r, (dictGet rs r).getD 0)) ∧
      ((f.severity = "critical" ∧
          f.reason = "Inverted privilege hierarchy") ∨
        (f.severity = "high" ∧
          f.reason = "Lower privilege role has same access as admin")) := by
  unfold bc_pair_finding at h
  by_cases h1 : p.1 = "admin"
  · rw [if_pos h1] at h; exact absurd h (by simp)
  · rw [if_neg h1] at h
    by_cases h2 : (!is_success a && is_success p.2) = true
    · rw [if_pos h2] at h
      have hf := (Option.some_inj.mp h).symm
      subst hf
      exact ⟨h1, rfl, rfl, rfl, rfl, rfl, Or.inl ⟨rfl, rfl⟩⟩
    · rw [if_neg h2] at h
      by_cases h3 : (is_success a && (a == p.2)) = true
      · rw [if_pos h3] at h
        have hf := (Option.some_inj.mp h).symm
        subst hf
        exact ⟨h1, rfl, rfl, rfl, rfl, rfl, Or.inr ⟨rfl, rfl⟩⟩
      · rw [if_neg h3] at h
        exact absurd h (by simp)

/-- Shape of a Rule A finding: it compares all roles of the map in map
order, restricts the status-code map to them, is the unique medium
"identical access" finding, and carries the endpoint identity it was built
from. -/
lemma ruleA_findings_mem (e m u : String) (rs : List (String × Int))
    (f : DifferentialFinding) (h : f ∈ ruleA_findings e m u rs) :
    f.endpoint = e ∧ f.method = m ∧ f.url = u ∧
      f.roles_compared = rs.map Prod.fst ∧
      f.status_codes =
        (rs.map Prod.fst).map (fun r => (r, (dictGet rs r).getD 0)) ∧
      f.severity = "medium" ∧ f.reason = "All roles have identical access" := by
  unfold ruleA_findings at h
  by_cases hc : (!rs.isEmpty
      && rs.all (fun p => is_success p.2 && p.2 == 200)) = true
  · rw [if_pos hc] at h
    rcases List.mem_cons.mp h with rfl | habs
    · exact ⟨rfl, rfl, rfl, rfl, rfl, rfl, rfl⟩
    · exact absurd habs (by simp)
  · rw [if_neg hc] at h
    exact absurd h (by simp)

/-- The Rule A finding never matches a per-pair selector that excludes
medium severity. -/
lemma filter_ruleA_not_pair (e m u : String) (rs : List (String × Int))
    (r : String) :
    (ruleA_findings e m u rs).filter
        (fun f => decide (f.roles_compared = ["admin", r] ∧
          f.severity ≠ "medium")) = [] := by
  rw [List.filter_eq_nil_iff]
  intro f hf
  have hm := (ruleA_findings_mem e m u rs f hf).2.2.2.2.2.1
  simp only [decide_eq_true_eq, not_and]
  intro _
  simp [hm]

/-- Rule B/C findings of roles other than `r` never match the pair selector
for `r`. -/
lemma filter_bc_no_role (e m u : String) (full l : List (String × Int))
    (a : Int) (r : String) (h : r ∉ l.map Prod.fst) :
    ((l.filterMap (bc_pair_finding e m u full a)).filter
        (fun f => decide (f.roles_compared = ["admin", r] ∧
          f.severity ≠ "medium"))) = [] := by
  rw [List.filter_eq_nil_iff]
  intro f hf
  rw [List.mem_filterMap] at hf
  obtain ⟨p, hp, hbc⟩ := hf
  have hroles := (bc_pair_finding_some e m u full a p f hbc).2.2.2.2.1
  simp only [decide_eq_true_eq, not_and]
  intro hrc
  have hpr : p.1 = r := by simpa using hroles.symm.trans hrc
  exact absurd (List.mem_map.mpr ⟨p, hp, hpr⟩) h

/-- Among the Rule B/C findings of a role→status map with distinct role
names, the ones selected for role `r` are exactly what the (r, s) entry
itself produced. -/
lemma filter_bc_unique (e m u : String) (full rs : List (String × Int))
    (a s : Int) (r : String) :
    (r, s) ∈ rs → (rs.map Prod.fst).Nodup →
    ((rs.filterMap (bc_pair_finding e m u full a)).filter
        (fun f => decide (f.roles_compared = ["admin", r] ∧
          f.severity ≠ "medium"))) =
      (bc_pair_finding e m u full a (r, s)).toList := by
  induction rs with
  | nil => intro hmem _; exact absurd hmem (by simp)
  | cons p rest ih =>
    intro hmem hnd
    have hnd2 : (rest.map Prod.fst).Nodup :=
      (List.nodup_cons.mp (by simpa using hnd)).2
    have hnotin : p.1 ∉ rest.map Prod.fst :=
      (List.nodup_cons.mp (by simpa using hnd)).1
    rcases List.mem_cons.mp hmem with hhead | htail
    · have hex : p = (r, s) := hhead.symm
      subst hex
      rw [List.filterMap_cons]
      cases hbc : bc_pair_finding e m u full a (r, s) with
      | none =>
        rw [Option.toList_none]
        exact filter_bc_no_role e m u full rest a r (by simpa using hnotin)
      | some f =>
        obtain ⟨-, -, -, -, hroles, -, hsev⟩ :=
          bc_pair_finding_some e m u full a (r, s) f hbc
        have hpred : decide (f.roles_compared = ["admin", r] ∧
            f.severity ≠ "medium") = true := by
          simp only [decide_eq_true_eq]
          refine ⟨by simpa using hroles, ?_⟩
          rcases hsev with ⟨hs, -⟩ | ⟨hs, -⟩ <;> simp [hs]
        rw [List.filter_cons, if_pos hpred, Option.toList_some,
          filter_bc_no_role e m u full rest a r (by simpa using hnotin)]
    · have hkey : r ∈ rest.map Prod.fst :=
        List.mem_map.mpr ⟨(r, s), htail, rfl⟩
      have hne : p.1 ≠ r := fun h => hnotin (h ▸ hkey)
      rw [List.filterMap_cons]
      cases hbc : bc_pair_finding e m u full a p with
      | none => exact ih htail hnd2
      | some f =>
        have hroles := (bc_pair_finding_some e m u full a p f hbc).2.2.2.2.1
        have hpred : ¬ (decide (f.roles_compared = ["admin", r] ∧
            f.severity ≠ "medium") = true) := by
          simp only [decide_eq_true_eq, not_and]
          intro hrc
          have hpr : p.1 = r := by simpa using hroles.symm.trans hrc
          exact absurd hpr hne
        rw [List.filter_cons, if_neg hpred]
        exact ih htail hnd2

/-- C3: for an endpoint whose role→status map contains an admin status `a`
(role names distinct, as in a Python dict), and for any non-admin entry
(r, s) of the map, the findings comparing [admin, r] are: exactly the one
critical "Inverted privilege hierarchy" finding when the admin status
classifies deny and s classifies allow; otherwise exactly the one high
"Lower privilege role has same access as admin" finding when the admin
status classifies allow and equals s numerically; otherwise none.  The two
rules can never fire together for a pair, and admin 200 vs role 201 (two
different 2xx codes) fires neither. -/
theorem rules_b_c_per_pair :
    (∀ (e : String) (ep : Endpoint) (rs : List (String × Int)) (a s : Int)
        (r : String),
      dictGet rs "admin" = some a → (r, s) ∈ rs → r ≠ "admin" →
      (rs.map Prod.fst).Nodup →
      (compare_roles [(e, rs)] [(e, ep)]).filter
          (fun f => decide (f.roles_compared = ["admin", r] ∧
            f.severity ≠ "medium")) =
        (if !is_success a && is_success s then
           [make_finding e ep.method ep.url rs ["admin", r] "critical"
             "Inverted privilege hierarchy"]
         else if is_success a && a == s then
           [make_finding e ep.method ep.url rs ["admin", r] "high"
             "Lower privilege role has same access as admin"]
         else [])) ∧
    (∀ a s : Int, ¬ ((!is_success a && is_success s) = true ∧
      (is_success a && (a == s)) = true)) ∧
    compare_roles [("e", [("admin", 200), ("manager", 201)])] [("e", ep0)]
      = [] := by
  refine ⟨?_, ?_, by decide⟩
  · intro e ep rs a s r hadmin hmem hr hnd
    rw [compare_roles_singleton, hadmin, List.filter_append,
      filter_ruleA_not_pair, List.nil_append,
      filter_bc_unique e ep.method ep.url rs rs a s r hmem hnd]
    unfold bc_pair_finding
    rw [if_neg (by simpa using hr : ¬ ((r, s).1 = "admin"))]
    by_cases h2 : (!is_success a && is_success s) = true
    · rw [if_pos (by simpa using h2), if_pos h2, Option.toList_some]
    · rw [if_neg (by simpa using h2), if_neg h2]
      by_cases h3 : (is_success a && (a == s)) = true
      · rw [if_pos (by simpa using h3), if_pos h3, Option.toList_some]
      · rw [if_neg (by simpa using h3), if_neg h3, Option.toList_none]
  · intro a s ⟨h1, h2⟩
    rw [Bool.and_eq_true, Bool.not_eq_true'] at h1
    rw [Bool.and_eq_true] at h2
    rw [h2.1] at h1
    exact absurd h1.1 (by simp)

/-- Witness for C3 at end-to-end C: admin 403 (deny) and manager 200
(allow) produce exactly the critical inverted-privilege finding for the
pair. -/
theorem rules_b_c_per_pair_witness :
    (compare_roles [("e", [("admin", (403 : Int)), ("manager", 200)])]
        [("e", ep0)]).filter
        (fun f => decide (f.roles_compared = ["admin", "manager"] ∧
          f.severity ≠ "medium")) =
      (if !is_success 403 && is_success 200 then
         [make_finding "e" ep0.method ep0.url
           [("admin", (403 : Int)), ("manager", 200)]
           ["admin", "manager"] "critical" "Inverted privilege hierarchy"]
       else if is_success 403 && ((403 : Int) == 200) then
         [make_finding "e" ep0.method ep0.url
           [("admin", (403 : Int)), ("manager", 200)]
           ["admin", "manager"] "high"
           "Lower privilege role has same access as admin"]
       else []) :=
  rules_b_c_per_pair.1 "e" ep0 [("admin", 403), ("manager", 200)] 403 200
    "manager" (by decide) (by decide) (by decide) (by decide)

/-- Rule B/C findings never match the Rule A reason selector. -/
lemma filter_bc_not_ruleA_reason (e m u : String)
    (full l : List (String × Int)) (a : Int) :
    ((l.filterMap (bc_pair_finding e m u full a)).filter
        (fun f => decide (f.reason = "All roles have identical access")))
      = [] := by
  rw [List.filter_eq_nil_iff]
  intro f hf
  rw [List.mem_filterMap] at hf
  obtain ⟨p, hp, hbc⟩ := hf
  have hsev := (bc_pair_finding_some e m u full a p f hbc).2.2.2.2.2.2
  simp only [decide_eq_true_eq]
  rcases hsev with ⟨-, hre⟩ | ⟨-, hre⟩ <;> simp [hre]

/-- C4: for every endpoint, the findings bearing the Rule A reason are
exactly one medium "All roles have identical access" finding over all roles
of the map in map order when the map is non-empty, every status classifies
as allow, and every status code is the literal 200 — and none otherwise (in
particular when any status is a different 2xx code).  The firing condition
is spelled out in the second conjunct, and the spec's end-to-end B instance
is the third. -/
theorem ruleA_suspicious_equality :
    (∀ (e : String) (ep : Endpoint) (rs : List (String × Int)),
      (compare_roles [(e, rs)] [(e, ep)]).filter
          (fun f => decide (f.reason = "All roles have identical access")) =
        (if !rs.isEmpty
            && rs.all (fun p => is_success p.2 && p.2 == 200) then
           [make_finding e ep.method ep.url rs (rs.map Prod.fst) "medium"
             "All roles have identical access"]
         else [])) ∧
    (∀ rs : List (String × Int),
      (!rs.isEmpty && rs.all (fun p => is_success p.2 && p.2 == 200)) = true
        ↔ (rs ≠ [] ∧ ∀ p ∈ rs, is_success p.2 = true ∧ p.2 = 200)) ∧
    (compare_roles [("e", [("admin", 200), ("manager", 200), ("user", 200)])]
        [("e", ep0)]).filter
        (fun f => decide (f.reason = "All roles have identical access")) =
      [make_finding "e" "GET" "http://api/e"
        [("admin", 200), ("manager", 200), ("user", 200)]
        ["admin", "manager", "user"] "medium"
        "All roles have identical access"] := by
  refine ⟨?_, ?_, by decide⟩
  · intro e ep rs
    rw [compare_roles_singleton, List.filter_append]
    have hbc : (((match dictGet rs "admin" with
        | none => []
        | some a =>
          rs.filterMap (bc_pair_finding e ep.method ep.url rs a)) :
          List DifferentialFinding).filter
          (fun f => decide (f.reason = "All roles have identical access")))
        = [] := by
      cases dictGet rs "admin" with
      | none => rfl
      | some a => exact filter_bc_not_ruleA_reason e ep.method ep.url rs rs a
    rw [hbc, List.append_nil]
    unfold ruleA_findings
    by_cases hc : (!rs.isEmpty
        && rs.all (fun p => is_success p.2 && p.2 == 200)) = true
    · rw [if_pos hc]
      simp [make_finding]
    · rw [if_neg hc]
      rfl
  · intro rs
    rw [Bool.and_eq_true, List.all_eq_true]
    constructor
    · rintro ⟨h1, h2⟩
      refine ⟨by simpa using h1, fun p hp => ?_⟩
      have := h2 p hp
      rw [Bool.and_eq_true, beq_iff_eq] at this
      exact this
    · rintro ⟨h1, h2⟩
      refine ⟨by simpa using h1, fun p hp => ?_⟩
      rw [Bool.and_eq_true, beq_iff_eq]
      exact h2 p hp

/-- C9: every differential finding references an endpoint of the results map
resolved in the catalog (carrying its name, HTTP method, and URL), compares
only roles that are keys of that endpoint's role→status map, and its
status-code map is exactly the restriction of that map to the compared roles
— each compared role paired with its actually probed status, nothing
fabricated. -/
theorem findings_reference_probed_roles :
    ∀ (results : List (String × List (String × Int)))
      (endpoints : List (String × Endpoint)) (f : DifferentialFinding),
      f ∈ compare_roles results endpoints →
      ∃ er, er ∈ results ∧ ∃ ep, dictGet endpoints er.1 = some ep ∧
        f.endpoint = er.1 ∧ f.method = ep.method ∧ f.url = ep.url ∧
        (∀ r ∈ f.roles_compared, r ∈ er.2.map Prod.fst) ∧
        f.status_codes = f.roles_compared.map
          (fun r => (r, (dictGet er.2 r).getD 0)) ∧
        (∀ rsc ∈ f.status_codes, dictGet er.2 rsc.1 = some rsc.2) := by
  intro results endpoints f hf
  rw [compare_roles, List.mem_flatMap] at hf
  obtain ⟨er, her, hfe⟩ := hf
  unfold compare_endpoint at hfe
  cases hep : dictGet endpoints er.1 with
  | none => rw [hep] at hfe; exact absurd hfe (by simp)
  | some ep =>
    rw [hep] at hfe
    dsimp only at hfe
    refine ⟨er, her, ep, hep, ?_⟩
    have main : f.endpoint = er.1 ∧ f.method = ep.method ∧ f.url = ep.url ∧
        (∀ r ∈ f.roles_compared, r ∈ er.2.map Prod.fst) ∧
        f.status_codes = f.roles_compared.map
          (fun r => (r, (dictGet er.2 r).getD 0)) := by
      have hsplit : f ∈ ruleA_findings er.1 ep.method ep.url er.2 ∨
          ∃ a, dictGet er.2 "admin" = some a ∧
            ∃ p ∈ er.2, bc_pair_finding er.1 ep.method ep.url er.2 a p
              = some f := by
        cases hadm : dictGet er.2 "admin" with
        | none => rw [hadm] at hfe; exact Or.inl hfe
        | some a =>
          rw [hadm] at hfe
          rcases List.mem_append.mp hfe with hA | hBC
          · exact Or.inl hA
          · rw [List.mem_filterMap] at hBC
            obtain ⟨p, hp, hbc⟩ := hBC
            exact Or.inr ⟨a, rfl, p, hp, hbc⟩
      rcases hsplit with hA | ⟨a, hadm, p, hp, hbc⟩
      · obtain ⟨h1, h2, h3, h4, h5, -, -⟩ :=
          ruleA_findings_mem er.1 ep.method ep.url er.2 f hA
        exact ⟨h1, h2, h3, by intro r hr; rw [h4] at hr; exact hr,
          by rw [h5, h4]⟩
      · obtain ⟨hpa, h1, h2, h3, h4, h5, -⟩ :=
          bc_pair_finding_some er.1 ep.method ep.url er.2 a p f hbc
        refine ⟨h1, h2, h3, ?_, by rw [h5, h4]⟩
        intro r hr
        rw [h4] at hr
        rcases List.mem_cons.mp hr with rfl | hr2
        · obtain ⟨q, hq, hq1, -⟩ := dictGet_some_mem er.2 "admin" a hadm
          exact List.mem_map.mpr ⟨q, hq, hq1⟩
        · have hr3 : r = p.1 := by simpa using hr2
          exact hr3 ▸ List.mem_map.mpr ⟨p, hp, rfl⟩
    obtain ⟨h1, h2, h3, h4, h5⟩ := main
    refine ⟨h1, h2, h3, h4, h5, ?_⟩
    intro rsc hrsc
    rw [h5, List.mem_map] at hrsc
    obtain ⟨r, hr, hrsc2⟩ := hrsc
    obtain ⟨v, hv⟩ := dictGet_isSome_of_mem_keys er.2 r (h4 r hr)
    rw [← hrsc2]
    simp [hv]

/-- Witness for C9: the Rule A finding of a one-role map references the
probed role `admin` with its probed status 200. -/
theorem findings_reference_probed_roles_witness :
    ∃ er, er ∈ [("e1", [("admin", (200 : Int))])] ∧
      ∃ ep, dictGet [("e1", ep0)] er.1 = some ep ∧
        (make_finding "e1" "GET" "http://api/e" [("admin", (200 : Int))]
            ["admin"] "medium" "All roles have identical access").endpoint
          = er.1 ∧
        (make_finding "e1" "GET" "http://api/e" [("admin", (200 : Int))]
            ["admin"] "medium" "All roles have identical access").method
          = ep.method ∧
        (make_finding "e1" "GET" "http://api/e" [("admin", (200 : Int))]
            ["admin"] "medium" "All roles have identical access").url
          = ep.url ∧
        (∀ r ∈ (make_finding "e1" "GET" "http://api/e"
            [("admin", (200 : Int))] ["admin"] "medium"
            "All roles have identical access").roles_compared,
          r ∈ er.2.map Prod.fst) ∧
        (make_finding "e1" "GET" "http://api/e" [("admin", (200 : Int))]
            ["admin"] "medium"
            "All roles have identical access").status_codes =
          (make_finding "e1" "GET" "http://api/e" [("admin", (200 : Int))]
            ["admin"] "medium"
            "All roles have identical access").roles_compared.map
            (fun r => (r, (dictGet er.2 r).getD 0)) ∧
        (∀ rsc ∈ (make_finding "e1" "GET" "http://api/e"
            [("admin", (200 : Int))] ["admin"] "medium"
            "All roles have identical access").status_codes,
          dictGet er.2 rsc.1 = some rsc.2) :=
  findings_reference_probed_roles [("e1", [("admin", 200)])] [("e1", ep0)]
    (make_finding "e1" "GET" "http://api/e" [("admin", 200)] ["admin"]
      "medium" "All roles have identical access") (by decide)

/-- A list map with an entry sent to `none` loses at least one element under
`filterMap`. -/
lemma length_filterMap_pred {α β : Type} (g : α → Option β) (l : List α)
    (x : α) (hx : x ∈ l) (hgx : g x = none) :
    (l.filterMap g).length ≤ l.length - 1 := by
  induction l with
  | nil => exact absurd hx (by simp)
  | cons y rest ih =>
    rcases List.mem_cons.mp hx with rfl | hmem
    · rw [List.filterMap_cons, hgx]
      have := List.length_filterMap_le g rest
      simp only [List.length_cons]
      omega
    · rw [List.filterMap_cons]
      cases hgy : g y with
      | none =>
        have := List.length_filterMap_le g rest
        simp only [List.length_cons]
        omega
      | some b =>
        have h1 := ih hmem
        have h2 : 1 ≤ rest.length :=
          List.length_pos.mpr (List.ne_nil_of_mem hmem)
        simp only [List.length_cons]
        omega

/-- C10: for an endpoint map with n roles, at most 1 + (n − 1) findings are
emitted for that endpoint (at most one Rule A finding plus at most one Rule
B/C finding per non-admin role), and the findings list is the Rule A
finding (if any) followed by the per-role Rule B/C findings in the insertion
order of the role→status map. -/
theorem per_endpoint_findings_bound :
    ∀ (e : String) (ep : Endpoint) (rs : List (String × Int)),
      (compare_roles [(e, rs)] [(e, ep)]).length ≤ 1 + (rs.length - 1) ∧
      compare_roles [(e, rs)] [(e, ep)] =
        ruleA_findings e ep.method ep.url rs ++
          (match dictGet rs "admin" with
           | none => []
           | some a =>
             rs.filterMap (bc_pair_finding e ep.method ep.url rs a)) := by
  intro e ep rs
  refine ⟨?_, compare_roles_singleton e ep rs⟩
  rw [compare_roles_singleton e ep rs, List.length_append]
  have hA : (ruleA_findings e ep.method ep.url rs).length ≤ 1 := by
    unfold ruleA_findings
    by_cases hc : (!rs.isEmpty
        && rs.all (fun p => is_success p.2 && p.2 == 200)) = true
    · rw [if_pos hc]; simp
    · rw [if_neg hc]; simp
  have hBC : ((match dictGet rs "admin" with
      | none => []
      | some a =>
        rs.filterMap (bc_pair_finding e ep.method ep.url rs a)) :
        List DifferentialFinding).length ≤ rs.length - 1 := by
    cases hadm : dictGet rs "admin" with
    | none => simp
    | some a =>
      obtain ⟨p, hp, hp1, -⟩ := dictGet_some_mem rs "admin" a hadm
      have hnone : bc_pair_finding e ep.method ep.url rs a p = none := by
        unfold bc_pair_finding
        rw [if_pos hp1]
      exact length_filterMap_pred _ rs p hp hnone
  omega

end BacAnalyzer
